import Mathlib

/-!
Verification of the chat-storage benchmarking harness
(`src/benchmark.js` of idb-transcript-caching-performance-poc).

The source is JavaScript; numbers are embedded as rationals (no rounding is
relevant to any claim), JavaScript number sentinels (NaN, Infinity) as an
explicit `JsNum` type, JS `Map`s as functions into `Option`, and the
benchmark loops as pure list functions over explicit operation-result lists.
-/

namespace ChatBench

/-- A JavaScript number as produced by the statistics code: either a finite
rational, one of the two infinities (`Math.min()` / `Math.max()` of an empty
spread), or NaN (`0 / 0`). -/
inductive JsNum where
  | num (q : ℚ)
  | posInf
  | negInf
  | nan
deriving DecidableEq

/-- Embeds `durations.reduce((a, b) => a + b, 0)`. -/
def jsSum (l : List ℚ) : ℚ := l.foldl (· + ·) 0

/-- Embeds JavaScript division `a / b` of finite operands: finite when the
divisor is nonzero, NaN for `0 / 0`, a signed infinity otherwise. -/
def jsDiv (a b : ℚ) : JsNum :=
  if b = 0 then
    if a = 0 then JsNum.nan else if 0 < a then JsNum.posInf else JsNum.negInf
  else JsNum.num (a / b)

/-- Embeds `Math.min(...l)`: positive infinity on the empty spread, otherwise
the least element. -/
def jsMin : List ℚ → JsNum
  | [] => JsNum.posInf
  | x :: xs => JsNum.num (xs.foldl min x)

/-- Embeds `Math.max(...l)`: negative infinity on the empty spread, otherwise
the greatest element. -/
def jsMax : List ℚ → JsNum
  | [] => JsNum.negInf
  | x :: xs => JsNum.num (xs.foldl max x)

/-- The result shape every store-adapter operation resolves with:
a success flag and a wall-clock duration in milliseconds. -/
structure OpResult where
  success : Bool
  duration : ℚ
deriving DecidableEq

/-- Modelled from the spec: the Timing Wrapper of the store adapters (the
adapter sources under `src/storage/` are absent from the repository snapshot;
`src/benchmark.js` only requires them). Per the spec it records a start time
and an end time around the operation and reports `duration = end - start`
together with the success flag. -/
def timedResult (tStart tEnd : ℚ) (ok : Bool) : OpResult :=
  { success := ok, duration := tEnd - tStart }

/-- The per-operation statistics bundle recorded by every benchmark phase
(`src/benchmark.js` lines 176-182 and its four clones). -/
structure Stats where
  average : JsNum
  min : JsNum
  max : JsNum
  total : ℚ
  count : ℕ
deriving DecidableEq

/-- Embeds the statistics object literal built at the end of each phase:
`average = sum / length`, `min = Math.min(...durations)`,
`max = Math.max(...durations)`, `total = sum`, `count = length`. -/
def computeStats (durations : List ℚ) : Stats :=
  { average := jsDiv (jsSum durations) durations.length
  , min := jsMin durations
  , max := jsMax durations
  , total := jsSum durations
  , count := durations.length }

/-- Embeds the accumulation loop of every phase: walk the operation results in
order and append the duration to the accumulator exactly when the result was a
success (`if (result.success) durations.push(result.duration)`). -/
def collectDurations : List OpResult → List ℚ → List ℚ
  | [], acc => acc
  | r :: rest, acc => collectDurations rest (if r.success then acc ++ [r.duration] else acc)

theorem collectDurations_eq (rs : List OpResult) (acc : List ℚ) :
    collectDurations rs acc = acc ++ (rs.filter (fun r => r.success)).map (fun r => r.duration) := by
  induction rs generalizing acc with
  | nil => simp [collectDurations]
  | cons r rest ih =>
    by_cases h : r.success <;> simp [collectDurations, h, ih]

theorem foldl_min_le_init (xs : List ℚ) (x : ℚ) : xs.foldl min x ≤ x := by
  induction xs generalizing x with
  | nil => simp
  | cons a t ih => exact le_trans (ih (min x a)) (min_le_left _ _)

theorem foldl_min_le_mem (xs : List ℚ) (x y : ℚ) (h : y ∈ xs) :
    xs.foldl min x ≤ y := by
  induction h generalizing x with
  | head as => exact le_trans (foldl_min_le_init as (min x y)) (min_le_right _ _)
  | tail b h2 ih => exact ih (min x b)

theorem foldl_min_le (xs : List ℚ) (x y : ℚ) (h : y ∈ x :: xs) :
    xs.foldl min x ≤ y := by
  rcases List.mem_cons.mp h with rfl | h2
  · exact foldl_min_le_init xs y
  · exact foldl_min_le_mem xs x y h2

theorem foldl_min_mem (xs : List ℚ) (x : ℚ) : xs.foldl min x ∈ x :: xs := by
  induction xs generalizing x with
  | nil => simp
  | cons a t ih =>
    have h := ih (min x a)
    rcases List.mem_cons.mp h with h1 | h1
    · rw [List.foldl_cons, h1]
      rcases min_choice x a with h2 | h2 <;> simp [h2]
    · exact List.mem_cons_of_mem _ (List.mem_cons_of_mem _ (by simpa using h1))

theorem init_le_foldl_max (xs : List ℚ) (x : ℚ) : x ≤ xs.foldl max x := by
  induction xs generalizing x with
  | nil => simp
  | cons a t ih => exact le_trans (le_max_left _ _) (ih (max x a))

theorem mem_le_foldl_max (xs : List ℚ) (x y : ℚ) (h : y ∈ xs) :
    y ≤ xs.foldl max x := by
  induction h generalizing x with
  | head as => exact le_trans (le_max_right _ _) (init_le_foldl_max as (max x y))
  | tail b h2 ih => exact ih (max x b)

theorem le_foldl_max (xs : List ℚ) (x y : ℚ) (h : y ∈ x :: xs) :
    y ≤ xs.foldl max x := by
  rcases List.mem_cons.mp h with rfl | h2
  · exact init_le_foldl_max xs y
  · exact mem_le_foldl_max xs x y h2

theorem foldl_max_mem (xs : List ℚ) (x : ℚ) : xs.foldl max x ∈ x :: xs := by
  induction xs generalizing x with
  | nil => simp
  | cons a t ih =>
    have h := ih (max x a)
    rcases List.mem_cons.mp h with h1 | h1
    · rw [List.foldl_cons, h1]
      rcases max_choice x a with h2 | h2 <;> simp [h2]
    · exact List.mem_cons_of_mem _ (List.mem_cons_of_mem _ (by simpa using h1))

/-- The duration list a phase ends up with: the accumulation loop started from
the empty array. -/
def phaseDurations (rs : List OpResult) : List ℚ := collectDurations rs []

theorem phaseDurations_eq (rs : List OpResult) :
    phaseDurations rs = (rs.filter (fun r => r.success)).map (fun r => r.duration) := by
  simpa using collectDurations_eq rs []

/-- A chat message as built by the test-data generator and consumed by the
store adapters (`src/benchmark.js` lines 144-150). -/
structure Message where
  id : String
  content : String
  sender : String
  timestamp : ℚ
  type : String
deriving DecidableEq

/-- One generated chat: its identifier and its message list
(`src/benchmark.js` line 153). -/
structure Chat where
  chatId : String
  messages : List Message
deriving DecidableEq

/-- C1: For every benchmark phase and variant, the recorded statistics bundle
has count equal to the number of successful calls, total equal to the sum of
the successful durations, average equal to total divided by count, min and max
equal to the least and greatest successful duration, and every recorded
duration non-negative (each settled result carrying a timing-wrapper duration
end minus start with end at or after start). -/
theorem C1_per_operation_stats_bundle (rs : List OpResult)
    (htimed : ∀ r ∈ rs, ∃ s t ok, s ≤ t ∧ r = timedResult s t ok)
    (hne : phaseDurations rs ≠ []) :
    (computeStats (phaseDurations rs)).count = (rs.filter (fun r => r.success)).length ∧
    (computeStats (phaseDurations rs)).total = jsSum (phaseDurations rs) ∧
    (computeStats (phaseDurations rs)).average =
      JsNum.num ((computeStats (phaseDurations rs)).total /
        ((computeStats (phaseDurations rs)).count : ℚ)) ∧
    (∃ q, (computeStats (phaseDurations rs)).min = JsNum.num q ∧
      q ∈ phaseDurations rs ∧ ∀ d ∈ phaseDurations rs, q ≤ d) ∧
    (∃ q, (computeStats (phaseDurations rs)).max = JsNum.num q ∧
      q ∈ phaseDurations rs ∧ ∀ d ∈ phaseDurations rs, d ≤ q) ∧
    (∀ d ∈ phaseDurations rs, 0 ≤ d) := by
  obtain ⟨x, xs, hx⟩ := List.exists_cons_of_ne_nil hne
  have hlen : ((phaseDurations rs).length : ℚ) ≠ 0 := by
    rw [hx]
    intro h
    have h0 : (0 : ℚ) ≤ (xs.length : ℚ) := Nat.cast_nonneg _
    simp only [List.length_cons, Nat.cast_add, Nat.cast_one] at h
    linarith
  refine ⟨?_, rfl, ?_, ?_, ?_, ?_⟩
  · show (phaseDurations rs).length = _
    rw [phaseDurations_eq, List.length_map]
  · show jsDiv (jsSum (phaseDurations rs)) ((phaseDurations rs).length : ℚ) = _
    simp only [jsDiv]
    rw [if_neg hlen]
    rfl
  · refine ⟨xs.foldl min x, ?_, ?_, ?_⟩
    · show jsMin (phaseDurations rs) = _
      rw [hx]
      rfl
    · rw [hx]; exact foldl_min_mem xs x
    · intro d hd; rw [hx] at hd; exact foldl_min_le xs x d hd
  · refine ⟨xs.foldl max x, ?_, ?_, ?_⟩
    · show jsMax (phaseDurations rs) = _
      rw [hx]
      rfl
    · rw [hx]; exact foldl_max_mem xs x
    · intro d hd; rw [hx] at hd; exact le_foldl_max xs x d hd
  · intro d hd
    rw [phaseDurations_eq] at hd
    obtain ⟨r, hr, rfl⟩ := List.mem_map.mp hd
    obtain ⟨s, t, ok, hst, rfl⟩ := htimed r (List.mem_of_mem_filter hr)
    simpa [timedResult] using sub_nonneg.mpr hst

/-- Two settled add-phase results, one success of duration 2 and one failure. -/
def c1SampleResults : List OpResult := [timedResult 0 2 true, timedResult 1 1 false]

/-- Witness for C1 at two concrete settled results. -/
theorem C1_per_operation_stats_bundle_witness :
    (∀ r ∈ c1SampleResults, ∃ s t ok, s ≤ t ∧ r = timedResult s t ok) ∧
    phaseDurations c1SampleResults ≠ [] ∧
    ((computeStats (phaseDurations c1SampleResults)).count =
      (c1SampleResults.filter (fun r => r.success)).length ∧
    (computeStats (phaseDurations c1SampleResults)).total =
      jsSum (phaseDurations c1SampleResults) ∧
    (computeStats (phaseDurations c1SampleResults)).average =
      JsNum.num ((computeStats (phaseDurations c1SampleResults)).total /
        ((computeStats (phaseDurations c1SampleResults)).count : ℚ)) ∧
    (∃ q, (computeStats (phaseDurations c1SampleResults)).min = JsNum.num q ∧
      q ∈ phaseDurations c1SampleResults ∧
      ∀ d ∈ phaseDurations c1SampleResults, q ≤ d) ∧
    (∃ q, (computeStats (phaseDurations c1SampleResults)).max = JsNum.num q ∧
      q ∈ phaseDurations c1SampleResults ∧
      ∀ d ∈ phaseDurations c1SampleResults, d ≤ q) ∧
    (∀ d ∈ phaseDurations c1SampleResults, 0 ≤ d)) := by
  have h1 : ∀ r ∈ c1SampleResults, ∃ s t ok, s ≤ t ∧ r = timedResult s t ok := by
    intro r hr
    rcases List.mem_cons.mp hr with rfl | hr2
    · exact ⟨0, 2, true, by norm_num, rfl⟩
    rcases List.mem_cons.mp hr2 with rfl | hr3
    · exact ⟨1, 1, false, le_refl 1, rfl⟩
    · simp at hr3
  have h2 : phaseDurations c1SampleResults ≠ [] := by
    rw [phaseDurations_eq]
    simp [c1SampleResults, timedResult]
  exact ⟨h1, h2, C1_per_operation_stats_bundle c1SampleResults h1 h2⟩

/-- C10: with zero successful calls the statistics computation divides zero by
zero: average is NaN and min and max are the infinite sentinels; with at least
one successful duration all three are finite numbers. -/
theorem C10_zero_success_stats_sentinels :
    (computeStats []).average = JsNum.nan ∧
    (computeStats []).min = JsNum.posInf ∧
    (computeStats []).max = JsNum.negInf ∧
    ∀ ds : List ℚ, ds ≠ [] →
      (∃ a, (computeStats ds).average = JsNum.num a) ∧
      (∃ m, (computeStats ds).min = JsNum.num m) ∧
      (∃ M, (computeStats ds).max = JsNum.num M) := by
  refine ⟨?_, rfl, rfl, ?_⟩
  · show jsDiv (jsSum []) ((0 : ℕ) : ℚ) = JsNum.nan
    simp [jsDiv, jsSum]
  · intro ds hds
    obtain ⟨x, xs, rfl⟩ := List.exists_cons_of_ne_nil hds
    refine ⟨⟨jsSum (x :: xs) / ((x :: xs).length : ℚ), ?_⟩, ⟨xs.foldl min x, rfl⟩,
      ⟨xs.foldl max x, rfl⟩⟩
    have hlen : (((x :: xs).length : ℕ) : ℚ) ≠ 0 := by
      intro h
      have h0 : (0 : ℚ) ≤ (xs.length : ℚ) := Nat.cast_nonneg _
      simp only [List.length_cons, Nat.cast_add, Nat.cast_one] at h
      linarith
    show jsDiv (jsSum (x :: xs)) (((x :: xs).length : ℕ) : ℚ) = _
    simp only [jsDiv]
    rw [if_neg hlen]

/-- Witness for C10 at the one-element duration list. -/
theorem C10_zero_success_stats_sentinels_witness :
    ([(3 : ℚ)] ≠ []) ∧
    ((∃ a, (computeStats [(3 : ℚ)]).average = JsNum.num a) ∧
     (∃ m, (computeStats [(3 : ℚ)]).min = JsNum.num m) ∧
     (∃ M, (computeStats [(3 : ℚ)]).max = JsNum.num M)) :=
  ⟨by simp, C10_zero_success_stats_sentinels.2.2.2 [(3 : ℚ)] (by simp)⟩

/-- Embeds the add-phase double loop for one variant (`src/benchmark.js` lines
167-174): one `addMessage` call per (chat, message) pair of the test data, in
order; the store behaviour is abstracted as a function from the call's
arguments to the settled result of that call. -/
def benchmarkAddResults (store : String → Message → OpResult) (testData : List Chat) :
    List OpResult :=
  testData.flatMap (fun c => c.messages.map (fun m => store c.chatId m))

/-- C2: a failed operation's duration is excluded from the accumulated
statistics and the loop continues: every (chat, message) pair is issued exactly
once whatever the earlier results were (the result list has one entry per pair,
so nothing is retried and nothing aborts the run), and the duration list keeps
exactly the successful results' durations. -/
theorem C2_failed_operations_excluded_run_continues
    (store : String → Message → OpResult) (testData : List Chat) :
    (benchmarkAddResults store testData).length =
      (testData.map (fun c => c.messages.length)).sum ∧
    phaseDurations (benchmarkAddResults store testData) =
      ((benchmarkAddResults store testData).filter (fun r => r.success)).map
        (fun r => r.duration) ∧
    ∀ c ∈ testData, ∀ m ∈ c.messages,
      store c.chatId m ∈ benchmarkAddResults store testData := by
  refine ⟨?_, phaseDurations_eq _, ?_⟩
  · induction testData with
    | nil => rfl
    | cons c rest ih =>
      simp only [benchmarkAddResults] at ih
      simp only [benchmarkAddResults, List.flatMap_cons, List.length_append, List.length_map,
        List.map_cons, List.sum_cons, ih]
  · intro c hc m hm
    exact List.mem_flatMap.mpr ⟨c, hc, List.mem_map.mpr ⟨m, hm, rfl⟩⟩

/-- The phases of a full benchmark run. `init` stands for the source's
initialization phase (the runner's initialization call before the benchmark
proper), `concurrentRead` for the concurrent-read phase, `stats` for the
storage-statistics phase, `report` for report generation and `cleanup` for the
final close calls. -/
inductive Phase where
  | init
  | add
  | read
  | edit
  | delete
  | concurrentRead
  | stats
  | report
  | cleanup
deriving DecidableEq

/-- The operations of the store-adapter contract named by the spec (§4.1).
`init` is the adapter's initialization operation and `close` releases the
backing handle. -/
inductive AdapterOp where
  | init
  | addMessage
  | addMessagesBulk
  | editMessage
  | deleteMessage
  | getChatMessages
  | messageExists
  | getStats
  | close
deriving DecidableEq

/-- The three storage variants the benchmark drives. -/
inductive Variant where
  | way1
  | way2
  | way3
deriving DecidableEq, Inhabited

/-- Embeds the body of `runFullBenchmark` (`src/benchmark.js` lines 405-420):
the awaited phase sequence between test-data generation and the returned
results. -/
def runFullBenchmarkPhases : List Phase :=
  [Phase.add, Phase.read, Phase.edit, Phase.delete, Phase.concurrentRead,
   Phase.stats, Phase.report]

/-- Embeds the top-level runner (`src/benchmark.js` lines 435-443): the
initialization call, then `runFullBenchmark`, then the cleanup call in the
`finally` block. -/
def fullRunPhases : List Phase :=
  [Phase.init] ++ runFullBenchmarkPhases ++ [Phase.cleanup]

/-- The adapter operations each phase issues against a variant, read off the
phase bodies: initialization calls the adapter initialization (lines 130-132),
the add phase calls `addMessage` (line 169), the read phase `getChatMessages`
(line 197), the edit phase `editMessage` (line 227), the delete phase
`deleteMessage` (line 258), the concurrent-read phase `getChatMessages`
(line 289), the stats phase `getStats` (line 316), report generation issues no
adapter operation (lines 322-363), and cleanup calls `close`
(lines 424-426). -/
def phaseAdapterOps : Phase → List AdapterOp
  | Phase.init => [AdapterOp.init]
  | Phase.add => [AdapterOp.addMessage]
  | Phase.read => [AdapterOp.getChatMessages]
  | Phase.edit => [AdapterOp.editMessage]
  | Phase.delete => [AdapterOp.deleteMessage]
  | Phase.concurrentRead => [AdapterOp.getChatMessages]
  | Phase.stats => [AdapterOp.getStats]
  | Phase.report => []
  | Phase.cleanup => [AdapterOp.close]

/-- The order in which each phase iterates the storage variants, read off the
phase bodies: every phase that touches the adapters walks way1, way2, way3 in
that fixed order (lines 130-132, 162, 191, 218, 249, 280, 314, 334, 374,
424-426); report generation iterates the same list per operation. -/
def phaseVariants : Phase → List Variant
  | Phase.init => [Variant.way1, Variant.way2, Variant.way3]
  | Phase.add => [Variant.way1, Variant.way2, Variant.way3]
  | Phase.read => [Variant.way1, Variant.way2, Variant.way3]
  | Phase.edit => [Variant.way1, Variant.way2, Variant.way3]
  | Phase.delete => [Variant.way1, Variant.way2, Variant.way3]
  | Phase.concurrentRead => [Variant.way1, Variant.way2, Variant.way3]
  | Phase.stats => [Variant.way1, Variant.way2, Variant.way3]
  | Phase.report => [Variant.way1, Variant.way2, Variant.way3]
  | Phase.cleanup => [Variant.way1, Variant.way2, Variant.way3]

/-- All adapter operations a full run issues against each variant, in phase
order. -/
def fullRunAdapterOps : List AdapterOp := fullRunPhases.flatMap phaseAdapterOps

/-- C3 counterexample: the claimed operation sequence includes a bulk add and
an existence check, but a full benchmark run never issues either adapter
operation. -/
theorem C3_counterexample_no_bulk_add_no_existence_check :
    AdapterOp.addMessagesBulk ∉ fullRunAdapterOps ∧
    AdapterOp.messageExists ∉ fullRunAdapterOps := by
  decide

/-- C3 (amended): a full run executes its phases strictly sequentially in the
fixed order initialize, add, read, edit, delete, concurrent-read, stats,
report, cleanup; every phase iterates the variants in the same fixed order
way1, way2, way3; and the adapter operations issued, in phase order, are
initialization, single add, read, single edit, delete, read (concurrently),
stats retrieval, and close — with no bulk add and no existence check. -/
theorem C3_phase_order_and_operation_sequence :
    fullRunPhases =
      [Phase.init, Phase.add, Phase.read, Phase.edit, Phase.delete,
       Phase.concurrentRead, Phase.stats, Phase.report, Phase.cleanup] ∧
    (∀ p : Phase, phaseVariants p = [Variant.way1, Variant.way2, Variant.way3]) ∧
    fullRunAdapterOps =
      [AdapterOp.init, AdapterOp.addMessage, AdapterOp.getChatMessages,
       AdapterOp.editMessage, AdapterOp.deleteMessage, AdapterOp.getChatMessages,
       AdapterOp.getStats, AdapterOp.close] := by
  refine ⟨rfl, ?_, rfl⟩
  intro p
  cases p <;> rfl

/-- Inserts an element into a list that is ascending on `key`, after any
earlier element of equal key (the stable position). -/
def insertAsc {α : Type} (key : α → ℚ) (x : α) : List α → List α
  | [] => [x]
  | y :: ys => if key x < key y then x :: y :: ys else y :: insertAsc key x ys

/-- Embeds `results.sort((a, b) => key(a) - key(b))`: a stable ascending sort
(ES2019 requires `Array.prototype.sort` to be stable), realized as stable
insertion sort processing the input in order. -/
def jsSortAsc {α : Type} (key : α → ℚ) (l : List α) : List α :=
  l.foldl (fun acc x => insertAsc key x acc) []

theorem insertAsc_perm {α : Type} (key : α → ℚ) (x : α) (l : List α) :
    (insertAsc key x l).Perm (x :: l) := by
  induction l with
  | nil => exact List.Perm.refl _
  | cons y ys ih =>
    by_cases hlt : key x < key y
    · simp [insertAsc, hlt]
    · simp only [insertAsc, if_neg hlt]
      exact (ih.cons y).trans (List.Perm.swap x y ys)

theorem foldl_insertAsc_perm {α : Type} (key : α → ℚ) (l acc : List α) :
    (l.foldl (fun acc x => insertAsc key x acc) acc).Perm (acc ++ l) := by
  induction l generalizing acc with
  | nil => simp
  | cons x xs ih =>
    refine (ih (insertAsc key x acc)).trans ?_
    refine (((insertAsc_perm key x acc).append_right xs).trans ?_)
    exact List.perm_middle.symm

theorem jsSortAsc_perm {α : Type} (key : α → ℚ) (l : List α) :
    (jsSortAsc key l).Perm l := by
  simpa using foldl_insertAsc_perm key l []

theorem insertAsc_sorted {α : Type} (key : α → ℚ) (x : α) (l : List α)
    (h : l.Pairwise (fun a b => key a ≤ key b)) :
    (insertAsc key x l).Pairwise (fun a b => key a ≤ key b) := by
  induction l with
  | nil => simp [insertAsc]
  | cons y ys ih =>
    rcases List.pairwise_cons.mp h with ⟨hy, hys⟩
    by_cases hlt : key x < key y
    · simp only [insertAsc, if_pos hlt]
      refine List.pairwise_cons.mpr ⟨?_, h⟩
      intro z hz
      rcases List.mem_cons.mp hz with rfl | hz2
      · exact le_of_lt hlt
      · exact le_trans (le_of_lt hlt) (hy z hz2)
    · simp only [insertAsc, if_neg hlt]
      refine List.pairwise_cons.mpr ⟨?_, ih hys⟩
      intro z hz
      rcases List.mem_cons.mp ((insertAsc_perm key x ys).mem_iff.mp hz) with rfl | hz3
      · exact le_of_not_lt hlt
      · exact hy z hz3

theorem jsSortAsc_sorted {α : Type} (key : α → ℚ) (l : List α) :
    (jsSortAsc key l).Pairwise (fun a b => key a ≤ key b) := by
  suffices hgen : ∀ acc : List α, acc.Pairwise (fun a b => key a ≤ key b) →
      (l.foldl (fun acc x => insertAsc key x acc) acc).Pairwise (fun a b => key a ≤ key b) by
    exact hgen [] (List.Pairwise.nil)
  induction l with
  | nil => intro acc hacc; exact hacc
  | cons x xs ih =>
    intro acc hacc
    exact ih (insertAsc key x acc) (insertAsc_sorted key x acc hacc)

/-- The per-operation result keys of `this.results` (`src/benchmark.js`
lines 327, 369). -/
inductive OpKey where
  | addMessage
  | readMessages
  | editMessage
  | deleteMessage
  | concurrentReads
deriving DecidableEq

/-- The operation list both report functions iterate (lines 327 and 369). -/
def operationKeys : List OpKey :=
  [OpKey.addMessage, OpKey.readMessages, OpKey.editMessage, OpKey.deleteMessage,
   OpKey.concurrentReads]

/-- The variant iteration order of the report functions, which is also the
insertion order of `this.results` (lines 121-125, 334, 374, 385). -/
def variantOrder : List Variant := [Variant.way1, Variant.way2, Variant.way3]

/-- Embeds the overall-score accumulation of `analyzeResults` (lines 384-393):
for a variant, walk the operation list and add the recorded average when that
operation has an entry, skipping absent entries. -/
def overallScore (avg : Variant → OpKey → Option ℚ) (w : Variant) : ℚ :=
  operationKeys.foldl
    (fun s op => match avg w op with | some a => s + a | none => s) 0

/-- Embeds the overall-winner selection (line 395): sort the (variant, score)
entries ascending by score and take the first entry's variant. -/
def overallWinner (avg : Variant → OpKey → Option ℚ) : Variant :=
  (jsSortAsc (fun p => p.2) (variantOrder.map (fun w => (w, overallScore avg w)))).headI.1

/-- C4: the overall winner is one of the variants and its sum of recorded
per-operation averages is minimal among all variants; the selection is a pure
function of the input statistics, hence deterministic. -/
theorem C4_overall_winner_minimal_score (avg : Variant → OpKey → Option ℚ) :
    overallWinner avg ∈ variantOrder ∧
    ∀ w : Variant, overallScore avg (overallWinner avg) ≤ overallScore avg w := by
  have hperm := jsSortAsc_perm (fun p : Variant × ℚ => p.2)
    (variantOrder.map (fun w => (w, overallScore avg w)))
  have hsorted := jsSortAsc_sorted (fun p : Variant × ℚ => p.2)
    (variantOrder.map (fun w => (w, overallScore avg w)))
  have hne : jsSortAsc (fun p : Variant × ℚ => p.2)
      (variantOrder.map (fun w => (w, overallScore avg w))) ≠ [] := by
    intro h
    have := hperm.length_eq
    rw [h] at this
    simp [variantOrder] at this
  obtain ⟨hd, tl, hht⟩ := List.exists_cons_of_ne_nil hne
  have hhd : hd ∈ variantOrder.map (fun w => (w, overallScore avg w)) := by
    refine hperm.mem_iff.mp ?_
    rw [hht]
    exact List.mem_cons_self _ _
  obtain ⟨w0, hw0, hw0eq⟩ := List.mem_map.mp hhd
  have hwinner : overallWinner avg = hd.1 := by
    simp [overallWinner, hht]
  have hscore : overallScore avg hd.1 = hd.2 := by
    rw [← hw0eq]
  constructor
  · rw [hwinner, ← hw0eq]
    exact hw0
  · intro w
    have hwmem : (w, overallScore avg w) ∈ variantOrder.map (fun v => (v, overallScore avg v)) := by
      refine List.mem_map.mpr ⟨w, ?_, rfl⟩
      cases w <;> simp [variantOrder]
    have hsortmem := hperm.mem_iff.mpr hwmem
    rw [hht] at hsortmem hsorted
    rw [hwinner, hscore]
    rcases List.mem_cons.mp hsortmem with heq | htl
    · rw [← heq]
    · exact (List.pairwise_cons.mp hsorted).1 _ htl

/-- Embeds the per-operation ranking of `generateReport` (lines 333-346): for
one operation, collect an entry per variant that has recorded statistics,
walking the variants in their fixed order, then sort ascending by average. -/
def opRanking (avg : Variant → Option ℚ) : List (Variant × ℚ) :=
  jsSortAsc (fun p => p.2)
    (variantOrder.filterMap (fun w => (avg w).map (fun a => (w, a))))

/-- C5: when all three variants have a recorded average for an operation, the
report's ranking for that operation lists exactly those three entries, sorted
by average in ascending order. -/
theorem C5_ranking_sorted_ascending (avg : Variant → Option ℚ) (a1 a2 a3 : ℚ)
    (h1 : avg Variant.way1 = some a1) (h2 : avg Variant.way2 = some a2)
    (h3 : avg Variant.way3 = some a3) :
    (opRanking avg).Pairwise (fun p q => p.2 ≤ q.2) ∧
    (opRanking avg).Perm
      [(Variant.way1, a1), (Variant.way2, a2), (Variant.way3, a3)] := by
  refine ⟨jsSortAsc_sorted _ _, ?_⟩
  have hl : variantOrder.filterMap (fun w => (avg w).map (fun a => (w, a))) =
      [(Variant.way1, a1), (Variant.way2, a2), (Variant.way3, a3)] := by
    simp [variantOrder, h1, h2, h3]
  rw [opRanking, hl]
  exact jsSortAsc_perm _ _

/-- A concrete per-operation average table: way1 slowest, way2 fastest. -/
def c5SampleAvg : Variant → Option ℚ :=
  fun w => match w with
  | Variant.way1 => some 3
  | Variant.way2 => some 1
  | Variant.way3 => some 2

/-- Witness for C5 at the concrete average table. -/
theorem C5_ranking_sorted_ascending_witness :
    c5SampleAvg Variant.way1 = some 3 ∧
    c5SampleAvg Variant.way2 = some 1 ∧
    c5SampleAvg Variant.way3 = some 2 ∧
    (opRanking c5SampleAvg).Pairwise (fun p q => p.2 ≤ q.2) ∧
    (opRanking c5SampleAvg).Perm
      [(Variant.way1, 3), (Variant.way2, 1), (Variant.way3, 2)] := by
  have h := C5_ranking_sorted_ascending c5SampleAvg 3 1 2 rfl rfl rfl
  exact ⟨rfl, rfl, rfl, h.1, h.2⟩

/-- Embeds the sender choice of line 147,
`user-(Math.floor(r * 5) + 1)` for a random draw `r` in [0, 1). -/
def senderFromRand (r : ℚ) : String :=
  "user-" ++ toString ((⌊r * 5⌋).toNat + 1)

/-- Embeds `generateTestData` (`src/benchmark.js` lines 136-157) as a pure
function of its two size parameters, the generation time `now` (milliseconds),
and the random draws it consumes, indexed by chat and message position: `uuid`
for the message identifier, `contentRand` for the random content suffix, and
`senderRand` and `timeRand` for the two `Math.random()` draws of lines 147-148
(each in [0, 1)). Nothing is persisted: the function only builds and returns
the list. -/
def generateTestData (numChats messagesPerChat : ℕ) (now : ℚ)
    (uuid contentRand : ℕ → ℕ → String) (senderRand timeRand : ℕ → ℕ → ℚ) :
    List Chat :=
  (List.range numChats).map (fun i =>
    { chatId := "chat-" ++ toString (i + 1)
    , messages := (List.range messagesPerChat).map (fun j =>
        { id := uuid i j
        , content := "Message " ++ toString (j + 1) ++ " in chat " ++ toString (i + 1)
            ++ " - " ++ contentRand i j
        , sender := senderFromRand (senderRand i j)
        , timestamp := now - timeRand i j * 86400000
        , type := "text" }) })

theorem senderFromRand_mem_pool (r : ℚ) (h0 : 0 ≤ r) (h1 : r < 1) :
    senderFromRand r ∈ ["user-1", "user-2", "user-3", "user-4", "user-5"] := by
  have hlow : (0 : ℤ) ≤ ⌊r * 5⌋ := Int.floor_nonneg.mpr (by positivity)
  have hhigh : ⌊r * 5⌋ < 5 := Int.floor_lt.mpr (by norm_num; linarith)
  have hn : (⌊r * 5⌋).toNat < 5 := by omega
  unfold senderFromRand
  interval_cases h : (⌊r * 5⌋).toNat <;> decide

/-- C6: for all sizes, the generator returns exactly `numChats` chats of
exactly `messagesPerChat` messages each; every message's sender is one of the
five fixed senders, its timestamp lies within the 24 hours (86400000 ms)
preceding the generation time, and its type tag is "text" — provided each
random draw lies in [0, 1) as `Math.random()` guarantees. -/
theorem C6_generator_shape_and_fields (numChats messagesPerChat : ℕ) (now : ℚ)
    (uuid contentRand : ℕ → ℕ → String) (senderRand timeRand : ℕ → ℕ → ℚ)
    (hs : ∀ i j, 0 ≤ senderRand i j ∧ senderRand i j < 1)
    (ht : ∀ i j, 0 ≤ timeRand i j ∧ timeRand i j < 1) :
    (generateTestData numChats messagesPerChat now uuid contentRand senderRand
      timeRand).length = numChats ∧
    ∀ c ∈ generateTestData numChats messagesPerChat now uuid contentRand
        senderRand timeRand,
      c.messages.length = messagesPerChat ∧
      ∀ m ∈ c.messages,
        m.sender ∈ ["user-1", "user-2", "user-3", "user-4", "user-5"] ∧
        now - 86400000 < m.timestamp ∧ m.timestamp ≤ now ∧ m.type = "text" := by
  constructor
  · simp [generateTestData]
  · intro c hc
    obtain ⟨i, hi, rfl⟩ := List.mem_map.mp hc
    constructor
    · simp
    · intro m hm
      obtain ⟨j, hj, rfl⟩ := List.mem_map.mp hm
      refine ⟨senderFromRand_mem_pool _ (hs i j).1 (hs i j).2, ?_, ?_, rfl⟩
      · have h1 : timeRand i j * 86400000 < 86400000 := by
          have := (ht i j).2
          nlinarith
        simp only []
        linarith
      · have h0 : 0 ≤ timeRand i j * 86400000 := by
          have := (ht i j).1
          positivity
        simp only []
        linarith

/-- A fixed random source at one half, lying in [0, 1). -/
def halfRand : ℕ → ℕ → ℚ := fun _ _ => 1 / 2

/-- A fixed string source for identifiers and content suffixes. -/
def fixedText : ℕ → ℕ → String := fun _ _ => "x"

/-- Witness for C6 at two chats of three messages, generation time 1000000. -/
theorem C6_generator_shape_and_fields_witness :
    (∀ i j, 0 ≤ halfRand i j ∧ halfRand i j < 1) ∧
    ((generateTestData 2 3 1000000 fixedText fixedText halfRand
      halfRand).length = 2 ∧
    ∀ c ∈ generateTestData 2 3 1000000 fixedText fixedText halfRand halfRand,
      c.messages.length = 3 ∧
      ∀ m ∈ c.messages,
        m.sender ∈ ["user-1", "user-2", "user-3", "user-4", "user-5"] ∧
        (1000000 : ℚ) - 86400000 < m.timestamp ∧ m.timestamp ≤ 1000000 ∧
        m.type = "text") := by
  have hr : ∀ i j, 0 ≤ halfRand i j ∧ halfRand i j < 1 := by
    intro i j
    constructor <;> norm_num [halfRand]
  exact ⟨hr, C6_generator_shape_and_fields 2 3 1000000 fixedText fixedText
    halfRand halfRand hr hr⟩

/-- Embeds the issue loop of `benchmarkConcurrentReads` (`src/benchmark.js`
lines 285-295): for each `i` below `concurrentUsers`, a read of chat
`testData[i % testData.length]` is issued immediately, without awaiting the
previous request; the store behaviour is abstracted as a function from the
requested chat identifier to that request's eventually settled result. The
list holds the results in issue order. -/
def concurrentIssuedResults (store : String → OpResult) (testData : List Chat)
    (concurrentUsers : ℕ) : List OpResult :=
  (List.range concurrentUsers).map (fun i =>
    store (testData.getD (i % testData.length) { chatId := "", messages := [] }).chatId)

/-- A read store resolving chat-1 reads with duration 1 and all other reads
with duration 2, always successfully. -/
def c7Store : String → OpResult :=
  fun cid => if cid = "chat-1" then { success := true, duration := 1 }
    else { success := true, duration := 2 }

/-- Two chats for the concurrent-read counterexample. -/
def c7TestData : List Chat :=
  [{ chatId := "chat-1", messages := [] }, { chatId := "chat-2", messages := [] }]

/-- C7 counterexample: each request's then-callback pushes its duration into
the shared array at the moment that request completes, so the array is filled
in completion order. With two issued reads of durations 1 then 2 that complete
in the opposite order, the gathered array is [2, 1], not the issue-order
[1, 2]: the order follows completion order, refuting the claim that it follows
issue order. -/
theorem C7_counterexample_completion_order :
    concurrentIssuedResults c7Store c7TestData 2 =
      [{ success := true, duration := 1 }, { success := true, duration := 2 }] ∧
    List.Perm [OpResult.mk true 2, OpResult.mk true 1]
      (concurrentIssuedResults c7Store c7TestData 2) ∧
    phaseDurations [OpResult.mk true 2, OpResult.mk true 1] = [2, 1] ∧
    phaseDurations (concurrentIssuedResults c7Store c7TestData 2) = [1, 2] ∧
    phaseDurations [OpResult.mk true 2, OpResult.mk true 1] ≠
      phaseDurations (concurrentIssuedResults c7Store c7TestData 2) := by
  refine ⟨rfl, ?_, rfl, rfl, ?_⟩
  · rw [show concurrentIssuedResults c7Store c7TestData 2 =
      [OpResult.mk true 1, OpResult.mk true 2] from rfl]
    exact List.Perm.swap _ _ _
  · intro h
    simp [phaseDurations, collectDurations, concurrentIssuedResults, c7Store,
      c7TestData] at h

/-- C7 (amended): the phase issues exactly `concurrentUsers` read operations
per variant without awaiting each before the next, waits for all of them to
settle, and gathers the durations in completion order; for every completion
sequence (a permutation of the issued results) the gathered durations are a
permutation of the issue-order successful durations — equal to them when
completions occur in issue order — and the statistics count all successes. -/
theorem C7_concurrent_reads_gathered (store : String → OpResult)
    (testData : List Chat) (concurrentUsers : ℕ) (completed : List OpResult)
    (hperm : completed.Perm (concurrentIssuedResults store testData concurrentUsers)) :
    (concurrentIssuedResults store testData concurrentUsers).length = concurrentUsers ∧
    (phaseDurations completed).Perm
      (phaseDurations (concurrentIssuedResults store testData concurrentUsers)) ∧
    (computeStats (phaseDurations completed)).count =
      ((concurrentIssuedResults store testData concurrentUsers).filter
        (fun r => r.success)).length := by
  refine ⟨?_, ?_, ?_⟩
  · simp [concurrentIssuedResults]
  · rw [phaseDurations_eq, phaseDurations_eq]
    exact (hperm.filter (fun r => r.success)).map (fun r => r.duration)
  · show (phaseDurations completed).length = _
    rw [phaseDurations_eq, List.length_map]
    exact (hperm.filter (fun r => r.success)).length_eq

/-- Witness for C7 at the two-request instance completing in reverse order. -/
theorem C7_concurrent_reads_gathered_witness :
    List.Perm [OpResult.mk true 2, OpResult.mk true 1]
      (concurrentIssuedResults c7Store c7TestData 2) ∧
    ((concurrentIssuedResults c7Store c7TestData 2).length = 2 ∧
    (phaseDurations [OpResult.mk true 2, OpResult.mk true 1]).Perm
      (phaseDurations (concurrentIssuedResults c7Store c7TestData 2)) ∧
    (computeStats (phaseDurations [OpResult.mk true 2, OpResult.mk true 1])).count =
      ((concurrentIssuedResults c7Store c7TestData 2).filter
        (fun r => r.success)).length) := by
  have hp : List.Perm [OpResult.mk true 2, OpResult.mk true 1]
      (concurrentIssuedResults c7Store c7TestData 2) := by
    rw [show concurrentIssuedResults c7Store c7TestData 2 =
      [OpResult.mk true 1, OpResult.mk true 2] from rfl]
    exact List.Perm.swap _ _ _
  exact ⟨hp, C7_concurrent_reads_gathered c7Store c7TestData 2 _ hp⟩

/-- Embeds the mock engine delete (`src/benchmark.js` lines 71-78):
`store.data.delete(key)` removes the key from the backing map, and the request
always fires its success callback, whether or not the key was present. Returns
the new map and the signalled success flag. -/
def mockStoreDelete {α : Type} (data : String → Option α) (key : String) :
    (String → Option α) × Bool :=
  (fun k => if k = key then none else data k, true)

/-- Modelled from the spec: the store-adapter operation
`deleteMessage(chatId, messageId)` (the adapter sources under `src/storage/`
are absent from the snapshot; `src/benchmark.js` only calls them). Per the
spec it removes the message under the given chat — a no-op when absent — by
issuing the mock store delete above, and reports that delete's success flag.
The adapter-held state maps a chat identifier and a message identifier to the
stored message. -/
def deleteMessage (st : String → String → Option Message)
    (chatId messageId : String) : (String → String → Option Message) × Bool :=
  let r := mockStoreDelete (st chatId) messageId
  (fun c => if c = chatId then r.1 else st c, r.2)

/-- C8: deleteMessage reports success for every chat and message identifier —
in particular when the message is absent, where it also leaves the state
unchanged — and deleting the same identifier twice leaves the store in the
same state as deleting it once. -/
theorem C8_deleteMessage_idempotent (st : String → String → Option Message)
    (chatId messageId : String) :
    (deleteMessage st chatId messageId).2 = true ∧
    (st chatId messageId = none → (deleteMessage st chatId messageId).1 = st) ∧
    (deleteMessage (deleteMessage st chatId messageId).1 chatId messageId).1 =
      (deleteMessage st chatId messageId).1 := by
  refine ⟨rfl, ?_, ?_⟩
  · intro h
    funext c k
    simp only [deleteMessage, mockStoreDelete]
    by_cases hc : c = chatId
    · subst hc
      by_cases hk : k = messageId
      · subst hk
        simp [h]
      · simp [hk]
    · simp [hc]
  · funext c k
    simp only [deleteMessage, mockStoreDelete]
    by_cases hc : c = chatId
    · subst hc
      by_cases hk : k = messageId <;> simp [hk]
    · simp [hc]

/-- A store holding no messages at all. -/
def emptyChatStore : String → String → Option Message := fun _ _ => none

/-- Witness for C8: deleting an absent message from the empty store. -/
theorem C8_deleteMessage_idempotent_witness :
    (deleteMessage emptyChatStore "chat-1" "m1").2 = true ∧
    (deleteMessage emptyChatStore "chat-1" "m1").1 = emptyChatStore ∧
    (deleteMessage (deleteMessage emptyChatStore "chat-1" "m1").1 "chat-1" "m1").1 =
      (deleteMessage emptyChatStore "chat-1" "m1").1 := by
  have h := C8_deleteMessage_idempotent emptyChatStore "chat-1" "m1"
  exact ⟨h.1, h.2.1 rfl, h.2.2⟩

/-- One mock database: its name, the version it was created with, and its
object-store names (`src/benchmark.js` lines 21-25). -/
structure MockDB where
  name : String
  version : ℕ
  objectStores : List String
deriving DecidableEq

/-- What an open request signals back: whether the attached upgrade handler
was invoked and whether the success callback fired. -/
structure OpenOutcome where
  upgradeCalled : Bool
  succeeded : Bool
deriving DecidableEq

/-- Embeds `MockIndexedDB.open` (`src/benchmark.js` lines 10-106): when the
database name is absent a fresh database is created at the requested version
(lines 20-26); then the request fires the upgrade handler whenever one is
attached — unconditionally, with no check that the database was just created
or that the version increased (lines 97-99) — followed by the success callback
(lines 100-102). `hasUpgradeHandler` states whether the caller attached an
upgrade handler to the request. -/
def mockOpen (databases : String → Option MockDB) (dbName : String)
    (version : ℕ) (hasUpgradeHandler : Bool) :
    (String → Option MockDB) × OpenOutcome :=
  let databases2 := match databases dbName with
    | none => fun n =>
        if n = dbName then some { name := dbName, version := version, objectStores := [] }
        else databases n
    | some _ => databases
  (databases2, { upgradeCalled := hasUpgradeHandler, succeeded := true })

/-- C9: evaluating the mock at the failing input. A first open creates ChatDB
at version 1; re-opening ChatDB at the same version 1 succeeds and leaves the
database map unchanged, yet still invokes the attached upgrade handler —
contradicting the claim (and the IndexedDB semantics the mock stands in for)
that the upgrade callback runs only on first creation or a version
increase. -/
theorem C9_reopen_same_version_still_upgrades :
    ((mockOpen (fun _ => none) "ChatDB" 1 true).1 "ChatDB" =
      some { name := "ChatDB", version := 1, objectStores := [] }) ∧
    (mockOpen (mockOpen (fun _ => none) "ChatDB" 1 true).1 "ChatDB" 1 true).1 =
      (mockOpen (fun _ => none) "ChatDB" 1 true).1 ∧
    (mockOpen (mockOpen (fun _ => none) "ChatDB" 1 true).1 "ChatDB" 1 true).2.upgradeCalled
      = true ∧
    (mockOpen (mockOpen (fun _ => none) "ChatDB" 1 true).1 "ChatDB" 1 true).2.succeeded
      = true := by
  refine ⟨by simp [mockOpen], ?_, rfl, rfl⟩
  simp [mockOpen]

end ChatBench
